import Mathlib

/-!
Verification of two vector math kernels from the Arm optimized-routines
`pl/math` sources:

* `src/pl/math/sv_cosf_2u1.c` — single-precision SVE `cos`
* `src/pl/math/v_atan_2u5.c`  — double-precision AdvSIMD `atan`

Floating-point values are embedded as their IEEE-754 bit patterns
(`Nat` below `2^32` for binary32, below `2^64` for binary64).  Bitwise
operations of the source (sign masking, sign flips by XOR, unsigned
compares on bit patterns, exponent-field extraction) are modelled
exactly.  The rounding arithmetic operations (add, mul, div, fused
multiply-add and the SVE trigonometric instructions), whose rounding
behaviour the claims under study do not depend on, are abstracted as a
structure of lane functions; the kernels are parameterised over them.
Where a claim needs the numeric value denoted by a bit pattern
(thresholds such as `2^20`), an exact rational decoding of the IEEE
encoding is used.

Vectors are lists of lane bit patterns; predicate masks are lists of
booleans.  Lane-wise intrinsics become `List.map` / pointwise
selection, and the kernels mirror the straight-line structure of the C
sources.
-/

namespace ArmPl

/-! ### IEEE-754 field extraction and exact decoding -/

/-- Sign bit of a binary32 bit pattern. -/
def sign32 (m : Nat) : Nat := m / 2 ^ 31 % 2

/-- Magnitude bits (sign cleared) of a binary32 bit pattern. -/
def mag32 (m : Nat) : Nat := m % 2 ^ 31

/-- Biased exponent field of a binary32 bit pattern. -/
def exp32 (m : Nat) : Nat := mag32 m / 2 ^ 23

/-- Fraction field of a binary32 bit pattern. -/
def frac32 (m : Nat) : Nat := mag32 m % 2 ^ 23

/-- The bit pattern encodes a finite binary32 number. -/
def isFinite32 (m : Nat) : Prop := exp32 m < 255

instance (m : Nat) : Decidable (isFinite32 m) := by
  unfold isFinite32; infer_instance

/-- Unsigned value of magnitude bits of a binary32 (exact, as a rational):
subnormals are `f·2^-149`, normals `(2^23 + f)·2^(e-150)`. -/
def uval32 (e f : Nat) : ℚ := if e = 0 then f / 2 ^ 149 else (2 ^ 23 + f) * 2 ^ e / 2 ^ 150

/-- Exact rational value of a finite binary32 bit pattern. -/
def val32 (m : Nat) : ℚ := (if sign32 m = 1 then -1 else 1) * uval32 (exp32 m) (frac32 m)

/-- Sign bit of a binary64 bit pattern. -/
def sign64 (m : Nat) : Nat := m / 2 ^ 63 % 2

/-- Magnitude bits (sign cleared) of a binary64 bit pattern. -/
def mag64 (m : Nat) : Nat := m % 2 ^ 63

/-- Biased exponent field of a binary64 bit pattern. -/
def exp64 (m : Nat) : Nat := mag64 m / 2 ^ 52

/-- Fraction field of a binary64 bit pattern. -/
def frac64 (m : Nat) : Nat := mag64 m % 2 ^ 52

/-- The bit pattern encodes a finite binary64 number. -/
def isFinite64 (m : Nat) : Prop := exp64 m < 2047

instance (m : Nat) : Decidable (isFinite64 m) := by
  unfold isFinite64; infer_instance

/-- Unsigned value of magnitude bits of a binary64 (exact, as a rational):
subnormals are `f·2^-1074`, normals `(2^52 + f)·2^(e-1075)`. -/
def uval64 (e f : Nat) : ℚ := if e = 0 then f / 2 ^ 1074 else (2 ^ 52 + f) * 2 ^ e / 2 ^ 1075

/-- Exact rational value of a finite binary64 bit pattern. -/
def val64 (m : Nat) : ℚ := (if sign64 m = 1 then -1 else 1) * uval64 (exp64 m) (frac64 m)

/-! ### Single-precision SVE cos kernel, from `src/pl/math/sv_cosf_2u1.c` -/

/-- Bit pattern of `-0x1.921fb6p+0f` (`NegPio2_1`). -/
def NegPio2_1 : Nat := 0xbfc90fdb

/-- Bit pattern of `0x1.777a5cp-25f` (`NegPio2_2`). -/
def NegPio2_2 : Nat := 0x333bbd2e

/-- Bit pattern of `0x1.ee59dap-50f` (`NegPio2_3`). -/
def NegPio2_3 : Nat := 0x26f72ced

/-- Bit pattern of `0x1p20f` (`RangeVal`). -/
def RangeVal : Nat := 0x49800000

/-- Bit pattern of `0x1.45f306p-1f` (`InvPio2`). -/
def InvPio2 : Nat := 0x3f22f983

/-- Bit pattern of `0x1.800002p+23f` (`Shift`). -/
def Shift : Nat := 0x4b400001

/-- The source's `AbsMask` for binary32. -/
def AbsMask32 : Nat := 0x7fffffff

/-- Lane-wise binary32 arithmetic of the SVE intrinsics used by the cos
kernel, abstracted: `fmla a b c` is `svmla_f32_x` (`a + b*c`), `fsub` is
`svsub_f32_x`, `fmul` is `svmul_f32_x`, and `tssel`, `tsmul`, `tmad`
are the trigonometric select / start / multiply-add instructions
(`svtssel_f32`, `svtsmul_f32`, `svtmad_f32`).  The claims under study
do not depend on their rounding behaviour, only on how the kernel wires
them together, so they are parameters of the development. -/
structure F32ops where
  fmla : Nat → Nat → Nat → Nat
  fsub : Nat → Nat → Nat
  fmul : Nat → Nat → Nat
  tssel : Nat → Nat → Nat
  tsmul : Nat → Nat → Nat
  tmad : Nat → Nat → Nat → Nat

/-- Per-lane special-case predicate of the cos kernel: the source
compares the bit pattern of `|x|` against the bit pattern of `RangeVal`
as unsigned 32-bit integers (`svcmpge_u32`). -/
def cosfCmp (x : Nat) : Bool := decide (RangeVal ≤ x &&& AbsMask32)

/-- Fast-path lane computation of `SV_NAME_F1(cos)`: sign masking,
bias-addition range reduction, three-part Cody–Waite residual, then the
trigonometric-instruction polynomial and the final factor.  Mirrors the
straight-line body of the C source on one lane. -/
def cosfLane (ops : F32ops) (x : Nat) : Nat :=
  let r0 := x &&& AbsMask32
  let q := ops.fmla Shift r0 InvPio2
  let n := ops.fsub q Shift
  let r1 := ops.fmla r0 n NegPio2_1
  let r2 := ops.fmla r1 n NegPio2_2
  let r3 := ops.fmla r2 n NegPio2_3
  let f := ops.tssel r3 q
  let s2 := ops.tsmul r3 q
  let y0 := ops.tmad 0 s2 4
  let y1 := ops.tmad y0 s2 3
  let y2 := ops.tmad y1 s2 2
  let y3 := ops.tmad y2 s2 1
  let y4 := ops.tmad y3 s2 0
  ops.fmul f y4

/-- Modelled from the spec: `sv_call_f32` (the lane dispatcher helper
from `sv_math.h`, not under `src/`) applies the scalar routine `f` to
the lanes flagged by the predicate and keeps the fast-path value `y` on
the others, merging per lane. -/
def sv_call_f32 (f : Nat → Nat) : List Nat → List Nat → List Bool → List Nat
  | x :: xs, y :: ys, c :: cs => (if c then f x else y) :: sv_call_f32 f xs ys cs
  | _, _, _ => []

/-- The vector kernel `SV_NAME_F1(cos)`: compute the fast path and the
compare mask for every lane, then either return the fast-path vector or
route the flagged lanes to the scalar `cosf` (a parameter) through the
special-case wrapper, exactly as the C source branches on
`svptest_any`. -/
def sv_cosf (ops : F32ops) (cosf : Nat → Nat) (xs : List Nat) : List Nat :=
  let y := xs.map (cosfLane ops)
  let cmp := xs.map cosfCmp
  if cmp.any id then sv_call_f32 cosf xs y cmp else y

/-! ### Double-precision AdvSIMD atan kernel, from `src/pl/math/v_atan_2u5.c` -/

/-- Bit pattern of `0x1.921fb54442d18p+0` (`PiOver2`). -/
def PiOver2 : Nat := 0x3ff921fb54442d18

/-- The source's `AbsMask` for binary64. -/
def AbsMask64 : Nat := 0x7fffffffffffffff

/-- Bit pattern of `-1.0` in binary64 (`v_f64 (-1.0)`). -/
def negOne64 : Nat := 0xbff0000000000000

/-- The source's `TinyBound`, `top12(asuint64(0x1p-30))`. -/
def TinyBound : Nat := 0x3e1

/-- The source's `BigBound`, `top12(asuint64(0x1p53))`. -/
def BigBound : Nat := 0x434

/-- Lane-wise binary64 arithmetic used by the atan kernel, abstracted:
`fadd`, `fmul`, `fdiv` are the AdvSIMD add, multiply and divide
(`vdivq_f64` etc.), `ffma a b c` is a fused multiply-add computing
`a*b + c` in one rounding, and `P` is the evaluation of the fixed
minimax polynomial `P(z²)` of the atan approximation at the already
squared argument (its coefficient table lives outside the excerpted
sources).  The claims under study do not depend on rounding behaviour,
so these are parameters of the development. -/
structure F64ops where
  fadd : Nat → Nat → Nat
  fmul : Nat → Nat → Nat
  fdiv : Nat → Nat → Nat
  ffma : Nat → Nat → Nat → Nat
  P : Nat → Nat

/-- Semantics of `vcagtq_f64 (x, v_f64 (1.0))`: IEEE compare of the
absolute values, true exactly when `|x| > 1`.  NaN compares false, an
infinity compares true, and a finite pattern compares by its exact
rational magnitude. -/
def facgt1 (x : Nat) : Bool :=
  if exp64 x = 2047 then decide (frac64 x = 0)
  else decide (1 < uval64 (exp64 x) (frac64 x))

/-- Per-lane special-case predicate of the atan kernel in
`WANT_SIMD_EXCEPT` mode: extract the exponent field
`ia12 = (ix >> 52) & 0x7ff` and test
`ia12 - TinyBound > BigBound - TinyBound` in wrapping unsigned 64-bit
arithmetic, as the C source does. -/
def atanSpecial (x : Nat) : Bool :=
  let ia12 := (x >>> 52) &&& 0x7ff
  decide (BigBound - TinyBound < (ia12 + 2 ^ 64 - TinyBound) % 2 ^ 64)

/-- Modelled from the spec: `eval_poly` (from `atan_common.h`, not
under `src/`) finalises the approximation as
`y = shift + z + z³·P(z²)`, evaluating the even polynomial on
`z² = z*z` and carrying the odd powers through the sign-adjusted
absolute value `az`, so the result is
`(P(z²) · (z²·az) + az) + shift` built from fused multiply-adds. -/
def eval_poly (ops : F64ops) (z az shift : Nat) : Nat :=
  let z2 := ops.fmul z z
  let p := ops.P z2
  let y := ops.ffma p (ops.fmul z2 az) az
  ops.fadd y shift

/-- Reduced argument of the atan kernel: the per-lane data selection
`vbslq_f64 (red, vdivq_f64 (v_f64 (-1.0), x), x)` on the compare mask,
so `z = -1/x` on flagged lanes and `z = x` on the others. -/
def atanZ (ops : F64ops) (x : Nat) : Nat :=
  if facgt1 x then ops.fdiv negOne64 x else x

/-- Shift term of the atan kernel: the per-lane data selection
`vbslq_f64 (red, PiOver2, v_f64 (0.0))`, so `π/2` on flagged lanes and
`0` on the others. -/
def atanShift (x : Nat) : Nat := if facgt1 x then PiOver2 else 0

/-- Fast-path lane computation of `V_NAME_D1(atan)`: record the sign
bits, reduce with `z = -1/x` and `shift = π/2` when `|x| > 1` (data
selection on the compare mask, `vbslq_f64`), form the sign-adjusted
absolute value `az`, evaluate the polynomial, and restore the original
sign by XOR onto the result. -/
def atanLane (ops : F64ops) (x : Nat) : Nat :=
  let sign := x &&& 2 ^ 63
  let red := facgt1 x
  let z := atanZ ops x
  let shift := atanShift x
  let az0 := z &&& AbsMask64
  let az := if red then az0 ^^^ 2 ^ 63 else az0
  let y := eval_poly ops z az shift
  y ^^^ sign

/-- Modelled from the spec: `v_call_f64` (the fallback helper from
`v_math.h`, not under `src/`) applies the scalar routine `f` to the
lanes whose mask bit is set and keeps `y` elsewhere. -/
def v_call_f64 (f : Nat → Nat) : List Nat → List Nat → List Bool → List Nat
  | x :: xs, y :: ys, c :: cs => (if c then f x else y) :: v_call_f64 f xs ys cs
  | _, _, _ => []

/-- The vector kernel `V_NAME_D1(atan)`, parameterised by the
compile-time `WANT_SIMD_EXCEPT` configuration: in exception-fidelity
mode, if any lane is special the whole vector is recomputed by the
scalar `atan` (a parameter) through `v_call_f64` with an all-ones mask
and `v_f64 (0)` as the discarded fast-path argument; otherwise every
lane takes the fast path. -/
def v_atan (wantSimdExcept : Bool) (ops : F64ops) (atanRef : Nat → Nat)
    (xs : List Nat) : List Nat :=
  if wantSimdExcept ∧ xs.any atanSpecial then
    v_call_f64 atanRef xs (xs.map fun _ => 0) (xs.map fun _ => true)
  else
    xs.map (atanLane ops)

/-! ### Lane dispatch lemmas -/

theorem sv_call_f32_maps (f g : Nat → Nat) (p : Nat → Bool) (xs : List Nat) :
    sv_call_f32 f xs (xs.map g) (xs.map p)
      = xs.map fun x => if p x then f x else g x := by
  induction xs with
  | nil => rfl
  | cons x xs ih => simp [sv_call_f32, List.map_cons, ih]

theorem v_call_f64_all (f : Nat → Nat) (xs ys : List Nat) (h : ys.length = xs.length) :
    v_call_f64 f xs ys (xs.map fun _ => true) = xs.map f := by
  induction xs generalizing ys with
  | nil => rfl
  | cons x xs ih =>
    cases ys with
    | nil => simp at h
    | cons y ys =>
      simp only [List.map_cons, v_call_f64, if_pos trivial]
      simp only [List.length_cons, Nat.succ.injEq] at h
      rw [ih ys h]

theorem sv_cosf_lanes (ops : F32ops) (cosf : Nat → Nat) (xs : List Nat) :
    sv_cosf ops cosf xs
      = xs.map fun x => if cosfCmp x then cosf x else cosfLane ops x := by
  unfold sv_cosf
  by_cases h : (xs.map cosfCmp).any id
  · simp only [h, if_pos, sv_call_f32_maps]
  · simp only [h, if_neg, Bool.false_eq_true, not_false_iff, if_false]
    refine List.map_congr_left fun x hx => ?_
    have hc : cosfCmp x = false := by
      by_contra hcon
      exact h (List.any_eq_true.mpr ⟨cosfCmp x, List.mem_map_of_mem _ hx, by
        simpa using hcon⟩)
    simp [hc]

/-! ### Concrete instantiations used to exercise the theorems -/

/-- Placeholder binary32 lane arithmetic (all operations return zero);
the structural theorems hold for any instantiation. -/
def zeroF32ops : F32ops :=
  { fmla := fun _ _ _ => 0, fsub := fun _ _ => 0, fmul := fun _ _ => 0,
    tssel := fun _ _ => 0, tsmul := fun _ _ => 0, tmad := fun _ _ _ => 0 }

/-- Sign-tracking binary64 lane arithmetic: division flips the sign bit
of the denominator, multiplication keeps only the XOR of the sign bits,
and the accumulating operations are bitwise.  It satisfies the IEEE
sign-symmetry facts the antisymmetry theorem assumes. -/
def signF64ops : F64ops :=
  { fadd := fun a b => a ||| b,
    fmul := fun a b => (a ^^^ b) &&& 2 ^ 63,
    fdiv := fun _ b => b ^^^ 2 ^ 63,
    ffma := fun a b c => (a &&& b) ||| c,
    P := fun z2 => z2 }

/-! ### C1: per-lane branch correctness of the cos kernel -/

/-- C1.  Every lane of the cos kernel receives the fast-path
composition when its special-case predicate is false and the scalar
reference `cosf` of its original input when the predicate is true: the
output vector is exactly the per-lane mix, so no lane gets a value from
the wrong branch. -/
theorem cosf_lane_branch_correct (ops : F32ops) (cosf : Nat → Nat) (xs : List Nat) :
    sv_cosf ops cosf xs
      = xs.map fun x => if cosfCmp x then cosf x else cosfLane ops x :=
  sv_cosf_lanes ops cosf xs

/-! ### C9: without WANT_SIMD_EXCEPT the atan kernel never falls back -/

/-- C9.  With the exception-fidelity configuration disabled, the atan
kernel computes the fast path for every lane of every input vector —
the result does not depend on the scalar reference at all, so the
scalar fallback is never invoked, and NaN, infinities, zeros and
subnormal lanes all receive the fast-path result. -/
theorem atan_no_except_no_fallback (ops : F64ops) (ref ref2 : Nat → Nat)
    (xs : List Nat) :
    v_atan false ops ref xs = xs.map (atanLane ops)
      ∧ v_atan false ops ref xs = v_atan false ops ref2 xs := by
  unfold v_atan
  simp

/-! ### C6: WANT_SIMD_EXCEPT whole-vector fallback of the atan kernel -/

/-- C6.  In exception-fidelity mode, as soon as one lane is flagged
special the whole vector is recomputed by the scalar reference: every
lane of the result is the scalar `atan` of that lane's input.
Moreover the `+∞` bit pattern is flagged special, so a vector
containing `+∞` takes this whole-vector fallback and its `+∞` lane
equals the scalar `atan (+∞)`. -/
theorem atan_except_whole_vector_fallback (ops : F64ops) (atanRef : Nat → Nat)
    (xs : List Nat) (h : ∃ x ∈ xs, atanSpecial x = true) :
    v_atan true ops atanRef xs = xs.map atanRef
      ∧ atanSpecial 0x7ff0000000000000 = true := by
  constructor
  · unfold v_atan
    obtain ⟨x, hx, hsx⟩ := h
    have hany : xs.any atanSpecial = true := List.any_eq_true.mpr ⟨x, hx, hsx⟩
    rw [if_pos ⟨rfl, hany⟩]
    exact v_call_f64_all atanRef xs _ (by simp)
  · decide

/-- Witness for C6 at the concrete one-lane vector `[+∞]`. -/
theorem atan_except_whole_vector_fallback_witness :
    (∃ x ∈ [0x7ff0000000000000], atanSpecial x = true)
      ∧ (v_atan true signF64ops (fun x => x + 1) [0x7ff0000000000000]
           = [0x7ff0000000000000].map (fun x => x + 1)
         ∧ atanSpecial 0x7ff0000000000000 = true) :=
  ⟨⟨0x7ff0000000000000, by decide, by decide⟩,
   atan_except_whole_vector_fallback signF64ops (fun x => x + 1)
     [0x7ff0000000000000] ⟨0x7ff0000000000000, by decide, by decide⟩⟩

/-! ### Decoding lemmas: bit-pattern thresholds versus exact values -/

theorem uval32_nonneg (e f : Nat) : 0 ≤ uval32 e f := by
  unfold uval32
  split <;> positivity

theorem abs_val32 (m : Nat) : |val32 m| = uval32 (exp32 m) (frac32 m) := by
  unfold val32
  rcases eq_or_ne (sign32 m) 1 with h | h <;>
    simp [h, abs_of_nonneg, uval32_nonneg]

theorem frac32_lt (m : Nat) : frac32 m < 2 ^ 23 := Nat.mod_lt _ (by norm_num)

theorem mag32_eq (m : Nat) : mag32 m = exp32 m * 2 ^ 23 + frac32 m := by
  have h := Nat.div_add_mod (mag32 m) (2 ^ 23)
  unfold exp32 frac32
  omega

theorem land_AbsMask32 (x : Nat) : x &&& AbsMask32 = mag32 x := by
  have h : AbsMask32 = 2 ^ 31 - 1 := by norm_num [AbsMask32]
  rw [h, Nat.and_pow_two_sub_one_eq_mod]
  rfl

/-- The binary32 magnitude threshold of the cos kernel: a finite bit
pattern has value at least `2^20` exactly when its exponent field is at
least 147, that is, exactly when its magnitude bits reach the bit
pattern of `RangeVal`. -/
theorem uval32_threshold (e f : Nat) (hfr : f < 2 ^ 23) (he : e < 255) :
    (2 ^ 20 : ℚ) ≤ uval32 e f ↔ 147 ≤ e := by
  unfold uval32
  constructor
  · intro h
    by_contra hlt
    push_neg at hlt
    have hle : e ≤ 146 := Nat.lt_succ_iff.mp hlt
    rcases eq_or_ne e 0 with h0 | h0
    · rw [if_pos h0] at h
      have hf : (f : ℚ) < 2 ^ 23 := by exact_mod_cast hfr
      have : (f : ℚ) / 2 ^ 149 < 2 ^ 20 := by
        rw [div_lt_iff₀ (by positivity)]
        calc (f : ℚ) < 2 ^ 23 := hf
        _ ≤ 2 ^ 20 * 2 ^ 149 := by norm_num
      linarith
    · rw [if_neg h0] at h
      have hnat : (2 ^ 23 + f) * 2 ^ e < 2 ^ 170 := by
        calc (2 ^ 23 + f) * 2 ^ e < 2 ^ 24 * 2 ^ e := by
              have h24 : 2 ^ 23 + f < 2 ^ 24 := by omega
              exact Nat.mul_lt_mul_of_lt_of_le h24 (Nat.le_refl _)
                (Nat.pos_pow_of_pos e (by norm_num))
        _ ≤ 2 ^ 24 * 2 ^ 146 := by
              exact Nat.mul_le_mul_left _ (Nat.pow_le_pow_right (by norm_num) hle)
        _ = 2 ^ 170 := by norm_num
      have hq : ((2 : ℚ) ^ 23 + f) * 2 ^ e < 2 ^ 170 := by exact_mod_cast hnat
      rw [le_div_iff₀ (by positivity)] at h
      have : (2 : ℚ) ^ 20 * 2 ^ 150 = 2 ^ 170 := by norm_num
      linarith
  · intro h
    have h0 : e ≠ 0 := by omega
    rw [if_neg h0, le_div_iff₀ (by positivity)]
    have hnat : 2 ^ 170 ≤ (2 ^ 23 + f) * 2 ^ e := by
      calc (2 ^ 170 : Nat) = 2 ^ 23 * 2 ^ 147 := by norm_num
      _ ≤ (2 ^ 23 + f) * 2 ^ e :=
        Nat.mul_le_mul (Nat.le_add_right _ _) (Nat.pow_le_pow_right (by norm_num) h)
    have hq : (2 : ℚ) ^ 170 ≤ ((2 : ℚ) ^ 23 + f) * 2 ^ e := by exact_mod_cast hnat
    have : (2 : ℚ) ^ 20 * 2 ^ 150 = 2 ^ 170 := by norm_num
    linarith

/-- The cos-kernel predicate of a finite binary32 pattern is set
exactly when the encoded magnitude is at least `2^20`. -/
theorem cosfCmp_iff_val (x : Nat) (hf : isFinite32 x) :
    cosfCmp x = true ↔ (2 ^ 20 : ℚ) ≤ |val32 x| := by
  unfold cosfCmp
  rw [decide_eq_true_iff, abs_val32, land_AbsMask32,
    uval32_threshold _ _ (frac32_lt x) hf]
  have hm : mag32 x = exp32 x * 2 ^ 23 + frac32 x := mag32_eq x
  have hfr : frac32 x < 2 ^ 23 := frac32_lt x
  unfold RangeVal
  omega

/-- Flipping the sign bit commutes away under the absolute-value mask:
XOR with `2^w` does not change the low `w` bits. -/
theorem xor_sign_and_mask (w x : Nat) :
    (x ^^^ 2 ^ w) &&& (2 ^ w - 1) = x &&& (2 ^ w - 1) := by
  apply Nat.eq_of_testBit_eq
  intro i
  by_cases hi : i = w
  · subst hi
    simp
  · simp [Nat.testBit_xor, Nat.testBit_two_pow, Ne.symm hi]

theorem land_AbsMask32_xor_sign (x : Nat) :
    (x ^^^ 2 ^ 31) &&& AbsMask32 = x &&& AbsMask32 := by
  have h : AbsMask32 = 2 ^ 31 - 1 := by norm_num [AbsMask32]
  rw [h, xor_sign_and_mask]

/-! ### C7: large-magnitude cos inputs go to the scalar fallback -/

/-- C7.  For a lane of the cos kernel holding a finite input of
magnitude at least `2^20`, the special-case predicate is true and that
lane of the result is the scalar reference `cos` of the original input;
a lane of magnitude below `2^20` has a false predicate and keeps the
fast-path value. -/
theorem cosf_large_input_fallback (ops : F32ops) (cosf : Nat → Nat)
    (xs : List Nat) (i x : Nat) (hget : xs[i]? = some x) (hf : isFinite32 x) :
    ((2 ^ 20 : ℚ) ≤ |val32 x| →
       cosfCmp x = true ∧ (sv_cosf ops cosf xs)[i]? = some (cosf x))
    ∧ (|val32 x| < (2 ^ 20 : ℚ) →
       cosfCmp x = false ∧ (sv_cosf ops cosf xs)[i]? = some (cosfLane ops x)) := by
  have hmap : (sv_cosf ops cosf xs)[i]?
      = some (if cosfCmp x then cosf x else cosfLane ops x) := by
    rw [sv_cosf_lanes, List.getElem?_map, hget]
    rfl
  constructor
  · intro hv
    have hc : cosfCmp x = true := (cosfCmp_iff_val x hf).mpr hv
    refine ⟨hc, ?_⟩
    rw [hmap, hc, if_pos rfl]
  · intro hv
    have hc : cosfCmp x = false := by
      rcases Bool.eq_false_or_eq_true (cosfCmp x) with h | h
      · exact absurd ((cosfCmp_iff_val x hf).mp h) (not_le.mpr hv)
      · exact h
    refine ⟨hc, ?_⟩
    rw [hmap, hc]
    simp

/-- Witness for C7 at the pattern of `2^20` (predicate set, scalar
branch) in a one-lane vector. -/
theorem cosf_large_input_fallback_witness :
    ([0x49800000] : List Nat)[0]? = some 0x49800000 ∧ isFinite32 0x49800000 ∧
    (((2 ^ 20 : ℚ) ≤ |val32 0x49800000| →
       cosfCmp 0x49800000 = true
         ∧ (sv_cosf zeroF32ops (fun b => b + 7) [0x49800000])[0]?
             = some ((fun b => b + 7) 0x49800000))
     ∧ (|val32 0x49800000| < (2 ^ 20 : ℚ) →
       cosfCmp 0x49800000 = false
         ∧ (sv_cosf zeroF32ops (fun b => b + 7) [0x49800000])[0]?
             = some (cosfLane zeroF32ops 0x49800000))) :=
  ⟨rfl, by decide,
   cosf_large_input_fallback zeroF32ops (fun b => b + 7) [0x49800000] 0
     0x49800000 rfl (by decide)⟩

/-! ### C10: the cos kernel is bit-exactly even on the fast path -/

/-- C10.  Negating every lane of a vector whose lanes are all finite
with magnitude below `2^20` leaves the cos kernel's output bit-for-bit
unchanged: the fast path reads only the sign-masked bits, and no lane
reaches the sign-dependent scalar fallback. -/
theorem cosf_even_fast_path (ops : F32ops) (cosf : Nat → Nat) (xs : List Nat)
    (h : ∀ x ∈ xs, isFinite32 x ∧ |val32 x| < (2 ^ 20 : ℚ)) :
    sv_cosf ops cosf (xs.map fun x => x ^^^ 2 ^ 31) = sv_cosf ops cosf xs := by
  rw [sv_cosf_lanes, sv_cosf_lanes, List.map_map]
  refine List.map_congr_left fun x hx => ?_
  obtain ⟨hf, hv⟩ := h x hx
  have hmask := land_AbsMask32_xor_sign x
  have hcmp : cosfCmp (x ^^^ 2 ^ 31) = cosfCmp x := by
    unfold cosfCmp
    rw [hmask]
  have hc : cosfCmp x = false := by
    rcases Bool.eq_false_or_eq_true (cosfCmp x) with h1 | h1
    · exact absurd ((cosfCmp_iff_val x hf).mp h1) (not_le.mpr hv)
    · exact h1
  have hlane : cosfLane ops (x ^^^ 2 ^ 31) = cosfLane ops x := by
    unfold cosfLane
    rw [hmask]
  simp only [Function.comp_apply, hcmp, hc, Bool.false_eq_true, if_false, hlane]

/-- Witness for C10 at the one-lane vector holding `1.5f`. -/
theorem cosf_even_fast_path_witness :
    (∀ x ∈ ([0x3fc00000] : List Nat), isFinite32 x ∧ |val32 x| < (2 ^ 20 : ℚ))
    ∧ sv_cosf zeroF32ops (fun b => b + 7) ([0x3fc00000].map fun x => x ^^^ 2 ^ 31)
        = sv_cosf zeroF32ops (fun b => b + 7) [0x3fc00000] := by
  have hq : ∀ x ∈ ([0x3fc00000] : List Nat), isFinite32 x ∧ |val32 x| < (2 ^ 20 : ℚ) := by
    intro x hx
    rw [List.mem_singleton] at hx
    subst hx
    refine ⟨by decide, ?_⟩
    rw [abs_val32]
    norm_num [uval32, exp32, frac32, mag32]
  exact ⟨hq, cosf_even_fast_path zeroF32ops (fun b => b + 7) [0x3fc00000] hq⟩

/-! ### Binary64 decoding lemmas -/

theorem uval64_nonneg (e f : Nat) : 0 ≤ uval64 e f := by
  unfold uval64
  split <;> positivity

theorem abs_val64 (m : Nat) : |val64 m| = uval64 (exp64 m) (frac64 m) := by
  unfold val64
  rcases eq_or_ne (sign64 m) 1 with h | h <;>
    simp [h, abs_of_nonneg, uval64_nonneg]

theorem frac64_lt (m : Nat) : frac64 m < 2 ^ 52 := Nat.mod_lt _ (by norm_num)

theorem exp64_lt (m : Nat) : exp64 m < 2 ^ 11 := by
  have h : mag64 m < 2 ^ 63 := Nat.mod_lt _ (by norm_num)
  unfold exp64
  omega

/-- For a finite pattern, the compare-absolute instruction agrees with
the exact decoded magnitude. -/
theorem facgt1_iff_val (x : Nat) (hf : isFinite64 x) :
    facgt1 x = true ↔ (1 : ℚ) < |val64 x| := by
  unfold facgt1
  rw [if_neg (by unfold isFinite64 at hf; omega), abs_val64, decide_eq_true_iff]

/-! ### C4: per-lane argument reduction of the atan kernel -/

/-- C4.  On every lane of the atan kernel holding a finite input, the
range reducer selects `z = -1/x` together with `shift = π/2` exactly
when `|x| > 1`, and `z = x` with `shift = 0` otherwise; the selection
is pure per-lane data selection over the vector. -/
theorem atan_reduction_select (ops : F64ops) (xs : List Nat) (i x : Nat)
    (hget : xs[i]? = some x) (hf : isFinite64 x) :
    ((1 : ℚ) < |val64 x| →
       (xs.map (atanZ ops))[i]? = some (ops.fdiv negOne64 x)
         ∧ (xs.map atanShift)[i]? = some PiOver2)
    ∧ (|val64 x| ≤ 1 →
       (xs.map (atanZ ops))[i]? = some x ∧ (xs.map atanShift)[i]? = some 0) := by
  have hz : (xs.map (atanZ ops))[i]? = some (atanZ ops x) := by
    rw [List.getElem?_map, hget]
    rfl
  have hs : (xs.map atanShift)[i]? = some (atanShift x) := by
    rw [List.getElem?_map, hget]
    rfl
  constructor
  · intro hv
    have hr : facgt1 x = true := (facgt1_iff_val x hf).mpr hv
    rw [hz, hs]
    unfold atanZ atanShift
    rw [hr]
    exact ⟨by simp, by simp⟩
  · intro hv
    have hr : facgt1 x = false := by
      rcases Bool.eq_false_or_eq_true (facgt1 x) with h1 | h1
      · exact absurd ((facgt1_iff_val x hf).mp h1) (not_lt.mpr hv)
      · exact h1
    rw [hz, hs]
    unfold atanZ atanShift
    rw [hr]
    exact ⟨by simp, by simp⟩

/-- Witness for C4 at the one-lane vector holding `2.0` (reciprocal
branch). -/
theorem atan_reduction_select_witness :
    ([0x4000000000000000] : List Nat)[0]? = some 0x4000000000000000
    ∧ isFinite64 0x4000000000000000
    ∧ (((1 : ℚ) < |val64 0x4000000000000000| →
         ([0x4000000000000000].map (atanZ signF64ops))[0]?
             = some (signF64ops.fdiv negOne64 0x4000000000000000)
           ∧ ([0x4000000000000000].map atanShift)[0]? = some PiOver2)
       ∧ (|val64 0x4000000000000000| ≤ 1 →
         ([0x4000000000000000].map (atanZ signF64ops))[0]? = some 0x4000000000000000
           ∧ ([0x4000000000000000].map atanShift)[0]? = some 0)) :=
  ⟨rfl, by decide,
   atan_reduction_select signF64ops [0x4000000000000000] 0 0x4000000000000000
     rfl (by decide)⟩

/-! ### Sign-bit algebra for the antisymmetry of atan -/

theorem mag64_xor_sign (x : Nat) : mag64 (x ^^^ 2 ^ 63) = mag64 x := by
  unfold mag64
  rw [← Nat.and_pow_two_sub_one_eq_mod, ← Nat.and_pow_two_sub_one_eq_mod,
    xor_sign_and_mask]

theorem exp64_xor_sign (x : Nat) : exp64 (x ^^^ 2 ^ 63) = exp64 x := by
  unfold exp64
  rw [mag64_xor_sign]

theorem frac64_xor_sign (x : Nat) : frac64 (x ^^^ 2 ^ 63) = frac64 x := by
  unfold frac64
  rw [mag64_xor_sign]

theorem facgt1_xor_sign (x : Nat) : facgt1 (x ^^^ 2 ^ 63) = facgt1 x := by
  unfold facgt1
  rw [exp64_xor_sign, frac64_xor_sign]

theorem land_AbsMask64_eq (z : Nat) : z &&& AbsMask64 = mag64 z := by
  have h : AbsMask64 = 2 ^ 63 - 1 := by norm_num [AbsMask64]
  rw [h, Nat.and_pow_two_sub_one_eq_mod]
  rfl

theorem land_AbsMask64_xor_sign (z : Nat) :
    (z ^^^ 2 ^ 63) &&& AbsMask64 = z &&& AbsMask64 := by
  rw [land_AbsMask64_eq, land_AbsMask64_eq, mag64_xor_sign]

theorem sign_land_xor (w x : Nat) :
    (x ^^^ 2 ^ w) &&& 2 ^ w = (x &&& 2 ^ w) ^^^ 2 ^ w := by
  apply Nat.eq_of_testBit_eq
  intro i
  simp only [Nat.testBit_xor, Nat.testBit_and, Nat.testBit_two_pow]
  by_cases hi : w = i
  · subst hi
    cases hx : x.testBit w <;> simp [hx]
  · rw [decide_eq_false hi]
    simp

/-! ### C5: bit-exact antisymmetry of the atan kernel -/

/-- C5.  Under the IEEE sign-symmetry facts about the abstracted
arithmetic — dividing `-1` by `-x` negates the quotient bit-exactly,
squaring ignores the sign bit, and the zero products and sums are exact
— flipping the sign bit of a finite input flips exactly the sign bit of
the atan kernel's lane result (the pre-restoration value depends only
on the magnitude bits), and in particular the lane maps `-0.0` to
`-0.0`. -/
theorem atan_antisymmetric (ops : F64ops) (x : Nat) (hf : isFinite64 x)
    (hdiv : ops.fdiv negOne64 (x ^^^ 2 ^ 63) = ops.fdiv negOne64 x ^^^ 2 ^ 63)
    (hmul : ∀ w, ops.fmul (w ^^^ 2 ^ 63) (w ^^^ 2 ^ 63) = ops.fmul w w)
    (hmul0 : ops.fmul 0 0 = 0)
    (hfma0 : ∀ a, ops.ffma a 0 0 = 0)
    (hadd0 : ops.fadd 0 0 = 0) :
    atanLane ops (x ^^^ 2 ^ 63) = atanLane ops x ^^^ 2 ^ 63
    ∧ atanLane ops (2 ^ 63) = 2 ^ 63 := by
  constructor
  · simp only [atanLane, atanZ, atanShift, eval_poly, facgt1_xor_sign]
    cases hr : facgt1 x
    · simp only [Bool.false_eq_true, if_false]
      rw [hmul x, land_AbsMask64_xor_sign, sign_land_xor 63 x, Nat.xor_assoc]
    · simp only [if_true]
      rw [hdiv, hmul (ops.fdiv negOne64 x), land_AbsMask64_xor_sign,
        sign_land_xor 63 x, Nat.xor_assoc]
  · have hz : facgt1 (2 ^ 63) = false := by
      have he : exp64 (2 ^ 63) = 0 := by norm_num [exp64, mag64]
      have hfr : frac64 (2 ^ 63) = 0 := by norm_num [frac64, mag64]
      unfold facgt1
      rw [he, hfr, if_neg (by norm_num)]
      simp [uval64]
    have h1 : (2 ^ 63 : Nat) &&& AbsMask64 = 0 := by decide
    have h2 : (2 ^ 63 : Nat) &&& 2 ^ 63 = 2 ^ 63 := by decide
    have h3 : ops.fmul (2 ^ 63) (2 ^ 63) = 0 := by
      have h := hmul 0
      rw [Nat.zero_xor] at h
      rw [h, hmul0]
    simp only [atanLane, atanZ, atanShift, eval_poly, hz, Bool.false_eq_true,
      if_false, h1, h2, h3, hmul0, hfma0, hadd0, Nat.zero_xor]

/-- Witness for C5 at the pattern of `1.0` with the sign-tracking
arithmetic. -/
theorem atan_antisymmetric_witness :
    isFinite64 0x3ff0000000000000
    ∧ (atanLane signF64ops (0x3ff0000000000000 ^^^ 2 ^ 63)
         = atanLane signF64ops 0x3ff0000000000000 ^^^ 2 ^ 63
       ∧ atanLane signF64ops (2 ^ 63) = 2 ^ 63) :=
  ⟨by decide,
   atan_antisymmetric signF64ops 0x3ff0000000000000 (by decide) (by decide)
     (fun w => by simp [signF64ops, Nat.xor_self]) (by decide)
     (fun a => by simp [signF64ops]) (by decide)⟩

/-! ### C8: the special-case predicate of the atan kernel -/

theorem ia12_eq (x : Nat) (h : x < 2 ^ 64) : (x >>> 52) &&& 0x7ff = exp64 x := by
  rw [Nat.shiftRight_eq_div_pow]
  have h11 : (0x7ff : Nat) = 2 ^ 11 - 1 := by norm_num
  rw [h11, Nat.and_pow_two_sub_one_eq_mod]
  unfold exp64 mag64
  omega

/-- The wrapping unsigned compare flags exactly the exponent fields
outside the closed interval `[TinyBound, BigBound]`. -/
theorem atanSpecial_iff_exp (x : Nat) (h : x < 2 ^ 64) :
    atanSpecial x = true ↔ (exp64 x < TinyBound ∨ BigBound < exp64 x) := by
  simp only [atanSpecial]
  rw [ia12_eq x h, decide_eq_true_iff]
  have he : exp64 x < 2 ^ 11 := exp64_lt x
  unfold TinyBound BigBound
  omega

theorem normal_ge_pow (f e c : Nat) (hc : c ≤ e) :
    2 ^ (52 + c) ≤ (2 ^ 52 + f) * 2 ^ e := by
  calc (2 : Nat) ^ (52 + c) = 2 ^ 52 * 2 ^ c := by rw [pow_add]
  _ ≤ (2 ^ 52 + f) * 2 ^ e :=
    Nat.mul_le_mul (Nat.le_add_right _ _) (Nat.pow_le_pow_right (by norm_num) hc)

theorem normal_lt_pow (f e c : Nat) (hfr : f < 2 ^ 52) (hc : e ≤ c) :
    (2 ^ 52 + f) * 2 ^ e < 2 ^ (53 + c) := by
  calc (2 ^ 52 + f) * 2 ^ e < 2 ^ 53 * 2 ^ e := by
        exact Nat.mul_lt_mul_of_lt_of_le (by omega) (Nat.le_refl _)
          (Nat.pos_pow_of_pos e (by norm_num))
  _ ≤ 2 ^ 53 * 2 ^ c := Nat.mul_le_mul_left _ (Nat.pow_le_pow_right (by norm_num) hc)
  _ = 2 ^ (53 + c) := by rw [pow_add]

/-- Below `2^-30` exactly means exponent field below `0x3e1`. -/
theorem uval64_tiny (e f : Nat) (hfr : f < 2 ^ 52) :
    uval64 e f < 1 / 2 ^ 30 ↔ e < 993 := by
  unfold uval64
  rcases eq_or_ne e 0 with h0 | h0
  · subst h0
    rw [if_pos rfl]
    constructor
    · intro _
      norm_num
    · intro _
      rw [div_lt_div_iff₀ (by positivity) (by positivity)]
      have hf : (f : ℚ) < 2 ^ 52 := by exact_mod_cast hfr
      calc (f : ℚ) * 2 ^ 30 < 2 ^ 52 * 2 ^ 30 := by
            exact mul_lt_mul_of_pos_right hf (by positivity)
      _ ≤ 1 * 2 ^ 1074 := by norm_num
  · rw [if_neg h0, div_lt_div_iff₀ (by positivity) (by positivity), one_mul]
    have hcast : ((2 : ℚ) ^ 52 + f) * 2 ^ e * 2 ^ 30 = (((2 ^ 52 + f) * 2 ^ e * 2 ^ 30 : ℕ) : ℚ) := by
      push_cast
      ring
    have hcast2 : ((2 : ℚ) ^ 1075) = (((2 ^ 1075 : ℕ) : ℚ)) := by
      push_cast
      ring
    rw [hcast, hcast2, Nat.cast_lt]
    have hsplit : (2 : Nat) ^ 1075 = 2 ^ 1045 * 2 ^ 30 := by norm_num
    rw [hsplit, Nat.mul_lt_mul_right (by positivity : (0 : Nat) < 2 ^ 30)]
    constructor
    · intro h
      by_contra hge
      push_neg at hge
      have h2 := normal_ge_pow f e 993 hge
      rw [show (52 + 993 : Nat) = 1045 from by norm_num] at h2
      omega
    · intro h
      have h2 := normal_lt_pow f e 992 hfr (by omega)
      rw [show (53 + 992 : Nat) = 1045 from by norm_num] at h2
      omega

/-- At least `2^54` exactly means exponent field above `0x434`. -/
theorem uval64_big (e f : Nat) (hfr : f < 2 ^ 52) :
    (2 ^ 54 : ℚ) ≤ uval64 e f ↔ 1077 ≤ e := by
  unfold uval64
  rcases eq_or_ne e 0 with h0 | h0
  · subst h0
    rw [if_pos rfl]
    constructor
    · intro h
      exfalso
      rw [le_div_iff₀ (by positivity)] at h
      have hf : (f : ℚ) < 2 ^ 52 := by exact_mod_cast hfr
      have : (2 : ℚ) ^ 54 * 2 ^ 1074 ≤ 2 ^ 52 := by linarith
      norm_num at this
    · intro h
      omega
  · rw [if_neg h0, le_div_iff₀ (by positivity)]
    have hcast : ((2 : ℚ) ^ 52 + f) * 2 ^ e = (((2 ^ 52 + f) * 2 ^ e : ℕ) : ℚ) := by
      push_cast
      ring
    have hcast2 : ((2 : ℚ) ^ 54 * 2 ^ 1075) = (((2 ^ 1129 : ℕ) : ℚ)) := by
      push_cast
      norm_num
    rw [hcast, hcast2, Nat.cast_le]
    constructor
    · intro h
      by_contra hlt
      push_neg at hlt
      have h2 := normal_lt_pow f e 1076 hfr (by omega)
      rw [show (53 + 1076 : Nat) = 1129 from by norm_num] at h2
      omega
    · intro h
      have h2 := normal_ge_pow f e 1077 h
      rw [show (52 + 1077 : Nat) = 1129 from by norm_num] at h2
      omega

/-- C8 counterexample: the bit pattern of `2^53` has magnitude at least
`2^53`, yet its exponent field equals `BigBound` and the kernel does
not flag it — so the predicate does not flag all inputs of magnitude
at least `2^53` as the claim states. -/
theorem atanSpecial_misses_two_pow_53 :
    atanSpecial 0x4340000000000000 = false
      ∧ (2 ^ 53 : ℚ) ≤ |val64 0x4340000000000000|
      ∧ isFinite64 0x4340000000000000 := by
  refine ⟨by decide, ?_, by decide⟩
  rw [abs_val64]
  have he : exp64 0x4340000000000000 = 1076 := by decide
  have hf : frac64 0x4340000000000000 = 0 := by decide
  rw [he, hf]
  unfold uval64
  rw [if_neg (by norm_num)]
  norm_num

/-- C8 (amended).  In exception-fidelity mode a lane is flagged
exactly when its exponent field (top 12 bits with the sign masked off)
lies outside `[0x3e1, 0x434]`; equivalently, the wrapping
subtract-and-compare flags precisely the inputs with `|x| < 2^-30`,
the inputs with `|x| ≥ 2^54`, and all infinities and NaNs. -/
theorem atanSpecial_characterisation (x : Nat) (h : x < 2 ^ 64) :
    (atanSpecial x = true ↔ ¬(TinyBound ≤ exp64 x ∧ exp64 x ≤ BigBound))
    ∧ (atanSpecial x = true ↔
        (|val64 x| < 1 / 2 ^ 30 ∨ (2 ^ 54 : ℚ) ≤ |val64 x| ∨ ¬isFinite64 x)) := by
  have hexp := atanSpecial_iff_exp x h
  have he11 : exp64 x < 2 ^ 11 := exp64_lt x
  constructor
  · rw [hexp]
    unfold TinyBound BigBound
    omega
  · rw [hexp, abs_val64, uval64_tiny _ _ (frac64_lt x), uval64_big _ _ (frac64_lt x)]
    unfold TinyBound BigBound isFinite64
    omega

/-- Witness for the amended C8 at the pattern of `1.0` (not flagged,
inside the validated band). -/
theorem atanSpecial_characterisation_witness :
    0x3ff0000000000000 < 2 ^ 64
    ∧ ((atanSpecial 0x3ff0000000000000 = true
          ↔ ¬(TinyBound ≤ exp64 0x3ff0000000000000
                ∧ exp64 0x3ff0000000000000 ≤ BigBound))
       ∧ (atanSpecial 0x3ff0000000000000 = true
          ↔ (|val64 0x3ff0000000000000| < 1 / 2 ^ 30
              ∨ (2 ^ 54 : ℚ) ≤ |val64 0x3ff0000000000000|
              ∨ ¬isFinite64 0x3ff0000000000000))) :=
  ⟨by norm_num, atanSpecial_characterisation 0x3ff0000000000000 (by norm_num)⟩

end ArmPl
